import Mathlib

/-!
Verification of the serpico serial protocol engine (src/serial.rs, src/main.rs).

The program drives a MicroPython board over a serial link: it discovers
candidate devices, enters raw-paste mode through a handshake, streams a script
under credit-based flow control, and waits for three end-marker bytes that
close the input phase and delimit the captured stdout and stderr.

The transport is modelled as a list of read events: each read attempt on the
port either yields one byte, times out (no data within the 10 ms read
timeout), or observes a closed stream (a read returning zero bytes).  The
`bytes_to_read` query reports pending data exactly when the next event is an
available byte.  All writes performed by the program are accumulated in order
as a trace of byte lists, one entry per `write_all` call.
-/

namespace Serpico

/-- One read attempt on the serial port: a byte arrives, the read times out,
or the stream is closed (a read returning `Ok(0)`). -/
inductive Ev where
  | byte (b : Nat)
  | timeout
  | closed
deriving DecidableEq

/-- The failure taxonomy of serial.rs (each constructor corresponds to one
`bail!`/propagated error site), plus `exhausted`, a modelling artifact marking
the end of the finite scripted event list where the real program would keep
blocking on the port. -/
inductive Err where
  | closed
  | timeout
  | ioFail
  | unsupported
  | unknown
  | protocol (b : Nat)
  | abruptEnd
  | exhausted
deriving DecidableEq

/-- Result of `read_until`: either the terminator was matched after consuming
`consumed` bytes (with `echoed` the bytes printed when echo is on, and `rest`
the unread events), or the scan failed. -/
inductive RRes where
  | matched (consumed : Nat) (echoed : List Nat) (rest : List Ev)
  | failed (e : Err)
deriving DecidableEq

/-- Model of `read_until` (serial.rs lines 34-75): the deque holds the last
`term.length` bytes (seeded with zeros); each received byte is pushed in and
the window is compared with the terminator; a timed-out read increments the
idle counter, failing once it exceeds `t * 100` when a budget `some t` is
configured.  Parameters after `cfg`: window, timeout counter, bytes consumed,
bytes echoed so far, remaining events. -/
def read_untilAux (term : List Nat) (echo : Bool) (cfg : Option Nat) :
    List Nat → Nat → Nat → List Nat → List Ev → RRes
  | _, _, _, _, [] => .failed .exhausted
  | _, _, _, _, .closed :: _ => .failed .closed
  | window, tcount, consumed, echoed, .byte b :: rest =>
      let window' := window.drop 1 ++ [b]
      let echoed' := if echo then echoed ++ [b] else echoed
      if window' = term then .matched (consumed + 1) echoed' rest
      else read_untilAux term echo cfg window' tcount (consumed + 1) echoed' rest
  | window, tcount, consumed, echoed, .timeout :: rest =>
      match cfg with
      | some t =>
          if t * 100 < tcount + 1 then .failed .timeout
          else read_untilAux term echo cfg window (tcount + 1) consumed echoed rest
      | none => read_untilAux term echo cfg window tcount consumed echoed rest

/-- Entry point of `read_until`: window seeded with `term.length` zero
placeholder bytes, counters at zero. -/
def read_until (term : List Nat) (echo : Bool) (cfg : Option Nat)
    (evs : List Ev) : RRes :=
  read_untilAux term echo cfg (List.replicate term.length 0) 0 0 [] evs

/-- Returns `true` when the scan ended with the cumulative idle-timeout error. -/
def RRes.isTimeoutFail : RRes → Bool
  | .failed .timeout => true
  | _ => false

/-- Model of `port.bytes_to_read()? > 0`: pending data is reported exactly when the
next scripted event is an available byte. -/
def pendingBytes : List Ev → Bool
  | .byte _ :: _ => true
  | _ => false

/-- Result of the ensure-credit loop: updated credit, last read buffer,
remaining events and write trace, or a failure with the trace so far. -/
inductive CreditRes where
  | ok (credit buf : Nat) (evs : List Ev) (out : List (List Nat))
  | fail (e : Err) (out : List (List Nat))
deriving DecidableEq

/-- The inner ensure-credit loop of `execute` (serial.rs lines 139-154):
while the credit is zero or the port reports pending bytes, perform a one-byte
`read_exact`; a `TimedOut` error is tolerated and — exactly as in the source —
the stale contents of `byte_buf` are then re-interpreted.  Byte 1 grants one
window of credit, byte 4 answers with an end-marker write and aborts, any
other byte is a protocol error. -/
def ensureCredit (ws : Nat) :
    Nat → Nat → List Ev → List (List Nat) → CreditRes
  | credit, buf, evs, out =>
    if credit = 0 ∨ pendingBytes evs then
      match evs with
      | [] => .fail .exhausted out
      | .closed :: _ => .fail .ioFail out
      | e :: rest =>
          let buf' := match e with | .byte b => b | _ => buf
          match buf' with
          | 1 => ensureCredit ws (credit + ws) buf' rest out
          | 4 => .fail .abruptEnd (out ++ [[4]])
          | b => .fail (.protocol b) out
    else .ok credit buf evs out

/-- Result of the transfer loop: final trace and remaining events, or a
failure with the trace so far. -/
inductive TransRes where
  | ok (out : List (List Nat)) (evs : List Ev)
  | fail (e : Err) (out : List (List Nat))
deriving DecidableEq

/-- The outer transfer loop of `execute` (serial.rs lines 137-166), with the
remaining script suffix in place of the index `i`: while bytes remain, ensure
credit, then send `chunk = min(window_remain, remaining)` bytes and deduct
them from the credit; after the loop a single end-marker byte is written.
`fuel` bounds the number of iterations (each successful iteration sends at
least one byte, so `script.length` fuel is never exhausted). -/
def transferLoopF (ws : Nat) :
    Nat → Nat → Nat → List Nat → List Ev → List (List Nat) → TransRes
  | _, _, _, [], evs, out => .ok (out ++ [[4]]) evs
  | 0, _, _, _ :: _, _, out => .fail .exhausted out
  | fuel + 1, credit, buf, r :: rs, evs, out =>
    match ensureCredit ws credit buf evs out with
    | .fail e out' => .fail e out'
    | .ok credit' buf' evs' out' =>
        transferLoopF ws fuel (credit' - min credit' (r :: rs).length) buf'
          ((r :: rs).drop (min credit' (r :: rs).length)) evs'
          (out' ++ [(r :: rs).take (min credit' (r :: rs).length)])

/-- The paste-transfer phase of `execute`: credit and the read buffer start
at zero, the trace starts empty. -/
def pasteTransfer (ws : Nat) (script : List Nat) (evs : List Ev) : TransRes :=
  transferLoopF ws script.length 0 0 script evs []

/-- The flush loop of `execute`: read and discard until a read times out
(`Ok(_)` — including `Ok(0)` from a closed stream — continues, `TimedOut`
breaks); `none` marks event exhaustion. -/
def flush : List Ev → Option (List Ev)
  | [] => none
  | .timeout :: rest => some rest
  | _ :: rest => flush rest

/-- Result of a two-byte `read_exact` into `double_buf`. -/
inductive Read2Res where
  | ok (a b : Nat) (evs : List Ev)
  | fail (e : Err)
deriving DecidableEq

/-- Model of `port.read_exact(&mut double_buf)?`: two immediately available bytes
succeed; a timeout or closed stream inside the exact read propagates as an
error. -/
def readExact2 : List Ev → Read2Res
  | .byte a :: .byte b :: rest => .ok a b rest
  | [] => .fail .exhausted
  | [.byte _] => .fail .exhausted
  | _ => .fail .ioFail

/-- Result of `execute`: the full write trace, the captured stdout and stderr
byte streams, and the unread events — or a failure with the trace so far. -/
inductive ExecRes where
  | ok (out : List (List Nat)) (sout serr : List Nat) (evs : List Ev)
  | fail (e : Err) (out : List (List Nat))
deriving DecidableEq

/-- The raw-mode banner `"raw REPL; CTRL-B to exit\r\n"` as bytes. -/
def rawBanner : List Nat :=
  [114, 97, 119, 32, 82, 69, 80, 76, 59, 32, 67, 84, 82, 76, 45, 66, 32,
   116, 111, 32, 101, 120, 105, 116, 13, 10]

/-- The reboot banner `"soft reboot\r\n"` as bytes. -/
def softRebootBanner : List Nat :=
  [115, 111, 102, 116, 32, 114, 101, 98, 111, 111, 116, 13, 10]

/-- The three completion waits at the end of `execute` (serial.rs lines
168-174): wait for an end-marker byte without echo (closing the input phase),
then with echo capturing stdout, then with echo capturing stderr. -/
def completionWaits (cfg : Option Nat) (evs : List Ev)
    (out : List (List Nat)) : ExecRes :=
  match read_until [4] false cfg evs with
  | .failed e => .fail e out
  | .matched _ _ r1 =>
    match read_until [4] true cfg r1 with
    | .failed e => .fail e out
    | .matched _ sout r2 =>
      match read_until [4] true cfg r2 with
      | .failed e => .fail e out
      | .matched _ serr r3 => .ok out sout serr r3

/-- Tail of `execute` from the window-size read onward (serial.rs lines 131-174):
read two bytes as the little-endian window unit size, run the transfer loop,
then the three completion waits. -/
def afterNegotiation (script : List Nat) (cfg : Option Nat)
    (evs : List Ev) (out : List (List Nat)) : ExecRes :=
  match readExact2 evs with
  | .fail e => .fail e out
  | .ok c d evs' =>
    match transferLoopF (c ||| (d <<< 8)) script.length 0 0 script evs' out with
    | .fail e out' => .fail e out'
    | .ok out' evs'' => completionWaits cfg evs'' out'

/-- Tail of `execute` from the bulk-paste request onward (serial.rs lines 122-174):
write the 3-byte request `\x05A\x01`, read the 2-byte response; `[82,0]`
fails as unsupported, `[82,1]` proceeds, anything else is an unknown
response. -/
def afterPrompt (script : List Nat) (cfg : Option Nat)
    (evs : List Ev) (out : List (List Nat)) : ExecRes :=
  match readExact2 evs with
  | .fail e => .fail e (out ++ [[5, 65, 1]])
  | .ok a b evs' =>
    match a, b with
    | 82, 0 => .fail .unsupported (out ++ [[5, 65, 1]])
    | 82, 1 => afterNegotiation script cfg evs' (out ++ [[5, 65, 1]])
    | _, _ => .fail .unknown (out ++ [[5, 65, 1]])

/-- Result of the handshake prefix of `execute`: remaining events and write
trace, or a failure with the trace so far. -/
inductive PreRes where
  | ok (evs : List Ev) (out : List (List Nat))
  | fail (e : Err) (out : List (List Nat))
deriving DecidableEq

/-- The handshake prefix of `execute` (serial.rs lines 91-120): write
`\r\x03\x03` (interrupt), flush until a read times out, write `\r\x01`
(enter raw mode), wait for the raw banner, write `\x04` (soft reset), wait
for the reboot banner, the raw banner again, and the `>` prompt. -/
def preNegotiation (cfg : Option Nat) (evs : List Ev) : PreRes :=
  match flush evs with
  | none => .fail .exhausted [[13, 3, 3]]
  | some e1 =>
    match read_until rawBanner false cfg e1 with
    | .failed e => .fail e [[13, 3, 3], [13, 1]]
    | .matched _ _ e2 =>
      match read_until softRebootBanner false cfg e2 with
      | .failed e => .fail e [[13, 3, 3], [13, 1], [4]]
      | .matched _ _ e3 =>
        match read_until rawBanner false cfg e3 with
        | .failed e => .fail e [[13, 3, 3], [13, 1], [4]]
        | .matched _ _ e4 =>
          match read_until [62] false cfg e4 with
          | .failed e => .fail e [[13, 3, 3], [13, 1], [4]]
          | .matched _ _ e5 => .ok e5 [[13, 3, 3], [13, 1], [4]]

/-- Model of `execute` (serial.rs lines 77-177): the handshake prefix followed by
negotiation, transfer and the completion waits. -/
def execute (script : List Nat) (cfg : Option Nat) (evs : List Ev) : ExecRes :=
  match preNegotiation cfg evs with
  | .fail e out => .fail e out
  | .ok evs' out => afterPrompt script cfg evs' out

/-- The port type reported by enumeration: a USB port with an optional
manufacturer string, or anything else. -/
inductive SerialPortType where
  | usbPort (manufacturer : Option String)
  | other
deriving DecidableEq

/-- One enumerated serial port: its path and its reported type. -/
structure SPortInfo where
  port_name : String
  port_type : SerialPortType
deriving DecidableEq

/-- Model of `find_micropython_devices` (serial.rs lines 13-32): skip ports whose
path starts with `/dev/cu.` (macOS alias devices), then keep USB ports whose
manufacturer string equals `"MicroPython"`. -/
def find_micropython_devices : List SPortInfo → List String
  | [] => []
  | p :: ps =>
    if p.port_name.startsWith "/dev/cu." then find_micropython_devices ps
    else
      match p.port_type with
      | .usbPort (some m) =>
          if m = "MicroPython" then
            p.port_name :: find_micropython_devices ps
          else find_micropython_devices ps
      | _ => find_micropython_devices ps

/-- Discovery predicate taken from the words of the spec: a USB-type port
whose advertised manufacturer exactly equals the vendor string of the
target runtime and whose path does not match the macOS duplicate/alias naming
convention. -/
def specDiscoveryKeep (p : SPortInfo) : Bool :=
  !(p.port_name.startsWith "/dev/cu.") &&
    match p.port_type with
    | .usbPort (some m) => m = "MicroPython"
    | _ => false

/-- Chunking relation for the transfer, taken from the words of the spec:
`SendSeq credits rest chunks` holds when successively sending
`min (credit, remaining length)` bytes with the listed positive credits
consumes `rest` exactly, each chunk bounded by the credit available at send
time. -/
inductive SendSeq : List Nat → List Nat → List (List Nat) → Prop where
  | nil : SendSeq [] [] []
  | cons (c : Nat) (cs : List Nat) (rest : List Nat) (ps : List (List Nat))
      (hc : 0 < c) (hr : rest ≠ [])
      (h : SendSeq cs (rest.drop (min c rest.length)) ps) :
      SendSeq (c :: cs) rest (rest.take (min c rest.length) :: ps)

/-- The sliding window of `read_until` after `k` received bytes of the byte
stream `bs`, for a terminator of length `n`: the zero-seeded window with the
first `k` bytes of `bs` pushed through it. -/
def wAt (n : Nat) (bs : List Nat) (k : Nat) : List Nat :=
  (List.replicate n 0 ++ bs.take k).drop k

/-- A scripted device run for the handshake prefix: one timed-out read
ending the flush, then the raw banner, the reboot banner, the raw banner
again, and the `>` prompt. -/
def witEvsPre : List Ev :=
  [Ev.timeout] ++ rawBanner.map Ev.byte ++ softRebootBanner.map Ev.byte ++
    rawBanner.map Ev.byte ++ [Ev.byte 62]

/-- A scripted device run for a complete successful session: the handshake
prefix, the `[82,1]` bulk-accept response, the window size `[2,0]`, one
credit grant followed by quiet (no pending data), then the three end-marker
phases with `[72]` as stdout content. -/
def witEvsFull : List Ev :=
  witEvsPre ++
    [Ev.byte 82, Ev.byte 1, Ev.byte 2, Ev.byte 0, Ev.byte 1, Ev.timeout,
     Ev.byte 4, Ev.byte 72, Ev.byte 4, Ev.byte 4]

/-! ## Helper lemmas -/

/-- When the ensure-credit loop exits normally the write trace is untouched
and the remaining credit is positive (the loop only exits once
`window_remain` is nonzero and no bytes are pending). -/
lemma ensureCredit_ok (ws : Nat) :
    ∀ (evs : List Ev) (credit buf : Nat) (out : List (List Nat))
      (credit' buf' : Nat) (evs' : List Ev) (out' : List (List Nat)),
      ensureCredit ws credit buf evs out = .ok credit' buf' evs' out' →
      out' = out ∧ 0 < credit' := by
  intro evs
  induction evs with
  | nil =>
      intro credit buf out c' b' e' o' h
      unfold ensureCredit at h
      split at h
      · simp at h
      · rename_i hcond
        cases h
        constructor
        · rfl
        · rcases Nat.eq_zero_or_pos credit with h0 | h0
          · exact absurd (Or.inl h0) hcond
          · exact h0
  | cons ev rest ih =>
      intro credit buf out c' b' e' o' h
      unfold ensureCredit at h
      split at h
      · cases ev with
        | closed => simp at h
        | byte b =>
            simp only at h
            split at h
            · exact ih _ _ _ _ _ _ _ h
            · simp at h
            · simp at h
        | timeout =>
            simp only at h
            split at h
            · exact ih _ _ _ _ _ _ _ h
            · simp at h
            · simp at h
      · rename_i hcond
        cases h
        constructor
        · rfl
        · rcases Nat.eq_zero_or_pos credit with h0 | h0
          · exact absurd (Or.inl h0) hcond
          · exact h0

/-- When the ensure-credit loop aborts with `AbruptEnd` the write trace has
gained exactly one end-marker write. -/
lemma ensureCredit_abrupt (ws : Nat) :
    ∀ (evs : List Ev) (credit buf : Nat) (out out' : List (List Nat)),
      ensureCredit ws credit buf evs out = .fail .abruptEnd out' →
      out' = out ++ [[4]] := by
  intro evs
  induction evs with
  | nil =>
      intro credit buf out o' h
      unfold ensureCredit at h
      split at h
      · simp at h
      · simp at h
  | cons ev rest ih =>
      intro credit buf out o' h
      unfold ensureCredit at h
      split at h
      · cases ev with
        | closed => simp at h
        | byte b =>
            simp only at h
            split at h
            · exact ih _ _ _ _ h
            · cases h; rfl
            · simp at h
        | timeout =>
            simp only at h
            split at h
            · exact ih _ _ _ _ h
            · cases h; rfl
            · simp at h
      · simp at h

/-- A successful transfer appends exactly the chunk writes of a `SendSeq`
run followed by one end-marker write, and the chunks concatenate to the
remaining script. -/
lemma transferLoopF_ok (ws : Nat) :
    ∀ (fuel : Nat) (rest : List Nat) (credit buf : Nat) (evs : List Ev)
      (out out' : List (List Nat)) (evs' : List Ev),
      transferLoopF ws fuel credit buf rest evs out = .ok out' evs' →
      ∃ cs ps, out' = out ++ ps ++ [[4]] ∧ SendSeq cs rest ps ∧
        ps.flatten = rest := by
  intro fuel
  induction fuel with
  | zero =>
      intro rest credit buf evs out out' evs' h
      cases rest with
      | nil =>
          cases h
          exact ⟨[], [], by simp, SendSeq.nil, rfl⟩
      | cons r rs => simp [transferLoopF] at h
  | succ fuel ih =>
      intro rest credit buf evs out out' evs' h
      cases rest with
      | nil =>
          cases h
          exact ⟨[], [], by simp, SendSeq.nil, rfl⟩
      | cons r rs =>
          simp only [transferLoopF] at h
          split at h
          · simp at h
          · rename_i credit' buf' evs1 out1 heq
            obtain ⟨ho, hc⟩ := ensureCredit_ok ws evs credit buf out _ _ _ _ heq
            obtain ⟨cs, ps, h1, h2, h3⟩ := ih _ _ _ _ _ _ _ h
            subst ho
            refine ⟨credit' :: cs,
              (r :: rs).take (min credit' (r :: rs).length) :: ps, ?_, ?_, ?_⟩
            · rw [h1]; simp
            · exact SendSeq.cons credit' cs (r :: rs) ps hc (by simp) h2
            · simp only [List.flatten_cons, h3, List.take_append_drop]

/-- C2: for every payload and every scripted sequence of device responses,
a transfer that runs to completion writes the payload as a sequence of
chunks, each chunk of size `min (remaining_credit, remaining payload)` with
positive credit at send time, the chunks concatenating exactly to the
payload (hence summing to its length), followed by the end-marker write. -/
theorem pasteTransfer_chunks_exact (ws : Nat) (script : List Nat)
    (evs : List Ev) (out : List (List Nat)) (evs' : List Ev)
    (h : pasteTransfer ws script evs = .ok out evs') :
    ∃ cs ps, out = ps ++ [[4]] ∧ SendSeq cs script ps ∧
      ps.flatten = script := by
  obtain ⟨cs, ps, h1, h2, h3⟩ :=
    transferLoopF_ok ws script.length script 0 0 evs [] out evs' h
  exact ⟨cs, ps, by simpa using h1, h2, h3⟩

/-- Witness for C2: window size 2, payload `[7,8,9]`, two credit grants. -/
theorem pasteTransfer_chunks_exact_witness :
    ∃ cs ps, ([[7, 8, 9], [4]] : List (List Nat)) = ps ++ [[4]] ∧
      SendSeq cs [7, 8, 9] ps ∧ ps.flatten = [7, 8, 9] :=
  pasteTransfer_chunks_exact 2 [7, 8, 9] [Ev.byte 1, Ev.byte 1]
    [[7, 8, 9], [4]] [] rfl

/-- C7: when the device signals an abrupt end mid-transfer, the write trace
gains the chunks sent so far (a prefix of the payload) followed by exactly
one end-marker write, and nothing after it: no further payload is sent. -/
theorem transfer_abrupt_end_trace (ws : Nat) :
    ∀ (fuel : Nat) (rest : List Nat) (credit buf : Nat) (evs : List Ev)
      (out out' : List (List Nat)),
      transferLoopF ws fuel credit buf rest evs out = .fail .abruptEnd out' →
      ∃ ps k, out' = out ++ ps ++ [[4]] ∧ ps.flatten = rest.take k := by
  intro fuel
  induction fuel with
  | zero =>
      intro rest credit buf evs out out' h
      cases rest with
      | nil => simp [transferLoopF] at h
      | cons r rs => simp [transferLoopF] at h
  | succ fuel ih =>
      intro rest credit buf evs out out' h
      cases rest with
      | nil => simp [transferLoopF] at h
      | cons r rs =>
          simp only [transferLoopF] at h
          split at h
          · rename_i e out1 heq
            cases h
            have := ensureCredit_abrupt ws evs credit buf out out' heq
            exact ⟨[], 0, by simpa using this, by simp⟩
          · rename_i credit' buf' evs1 out1 heq
            obtain ⟨ho, hc⟩ := ensureCredit_ok ws evs credit buf out _ _ _ _ heq
            obtain ⟨ps, k, h1, h2⟩ := ih _ _ _ _ _ _ h
            subst ho
            refine ⟨(r :: rs).take (min credit' (r :: rs).length) :: ps,
              min credit' (r :: rs).length + k, ?_, ?_⟩
            · rw [h1]; simp
            · simp only [List.flatten_cons, h2, List.take_add]

/-- Witness for C7: the first control byte is the abrupt-end byte 4; the
trace is exactly one end-marker write and no payload. -/
theorem transfer_abrupt_end_trace_witness :
    ∃ ps k, ([[4]] : List (List Nat)) = [] ++ ps ++ [[4]] ∧
      ps.flatten = ([9] : List Nat).take k :=
  transfer_abrupt_end_trace 2 1 [9] 0 0 [Ev.byte 4] [] [[4]] rfl

/-- C1 (code bug): with the window negotiated and payload `[100]` pending,
the very first ensure-credit read times out; serial.rs then re-interprets
the stale `byte_buf` contents (initially 0) and aborts the transfer with a
protocol error, although no control byte was read from the transport. -/
theorem creditLoop_stale_buffer_misread :
    pasteTransfer 256 [100] [Ev.timeout] = .fail (.protocol 0) [] := rfl

/-- C10: for an empty payload the transfer loop is skipped entirely: no
control bytes are read (the event stream is returned untouched), no payload
bytes are written, and the single end-of-transmission end-marker write
follows immediately; consequently `execute` moves straight from the window
negotiation to the completion waits. -/
theorem transfer_empty_script :
    (∀ (ws fuel credit buf : Nat) (evs : List Ev) (out : List (List Nat)),
        transferLoopF ws fuel credit buf [] evs out = .ok (out ++ [[4]]) evs) ∧
    (∀ (cfg : Option Nat) (c d : Nat) (evs : List Ev)
        (out : List (List Nat)),
        afterNegotiation [] cfg (Ev.byte c :: Ev.byte d :: evs) out =
          completionWaits cfg evs (out ++ [[4]])) := by
  constructor
  · intro ws fuel credit buf evs out
    simp [transferLoopF]
  · intro cfg c d evs out
    simp [afterNegotiation, readExact2, transferLoopF]

/-- C9: device discovery returns exactly the ports kept by the predicate
of the spec — USB type, manufacturer string exactly `"MicroPython"`, path not
matching the macOS `/dev/cu.` alias convention — in enumeration order. -/
theorem find_micropython_devices_filter_spec (ports : List SPortInfo) :
    find_micropython_devices ports =
      (ports.filter specDiscoveryKeep).map SPortInfo.port_name := by
  induction ports with
  | nil => simp [find_micropython_devices]
  | cons p ps ih =>
      rcases p with ⟨name, ptype⟩
      by_cases hcu : String.startsWith name "/dev/cu."
      · simp [find_micropython_devices, hcu, List.filter_cons,
          specDiscoveryKeep, ih]
      · cases ptype with
        | usbPort m =>
            cases m with
            | none =>
                simp [find_micropython_devices, hcu, List.filter_cons,
                  specDiscoveryKeep, ih]
            | some s =>
                by_cases hm : s = "MicroPython"
                · simp [find_micropython_devices, hcu, hm, List.filter_cons,
                    specDiscoveryKeep, ih]
                · simp [find_micropython_devices, hcu, hm, List.filter_cons,
                    specDiscoveryKeep, ih]
        | other =>
            simp [find_micropython_devices, hcu, List.filter_cons,
              specDiscoveryKeep, ih]

/-- A run of at least one no-data interval that pushes the idle counter past
the `t * 100` budget makes the scan fail with the timeout error. -/
lemma read_untilAux_timeout_budget (term : List Nat) (echo : Bool) (t : Nat) :
    ∀ (m tc consumed : Nat) (window echoed : List Nat) (evs : List Ev),
      1 ≤ m → t * 100 + 1 ≤ tc + m →
      read_untilAux term echo (some t) window tc consumed echoed
        (List.replicate m Ev.timeout ++ evs) = .failed .timeout := by
  intro m
  induction m with
  | zero => omega
  | succ m ih =>
      intro tc consumed window echoed evs _ h2
      rw [List.replicate_succ, List.cons_append]
      by_cases hb : t * 100 < tc + 1
      · simp [read_untilAux, hb]
      · simp only [read_untilAux, hb, if_false]
        exact ih (tc + 1) consumed window echoed evs (by omega) (by omega)

/-- With no idle-timeout budget configured the scan never returns the
timeout error, whatever the event stream. -/
lemma read_untilAux_none_no_timeout (term : List Nat) (echo : Bool) :
    ∀ (evs : List Ev) (window echoed : List Nat) (tc consumed : Nat),
      RRes.isTimeoutFail
        (read_untilAux term echo none window tc consumed echoed evs) = false := by
  intro evs
  induction evs with
  | nil =>
      intro window echoed tc consumed
      simp [read_untilAux, RRes.isTimeoutFail]
  | cons ev rest ih =>
      intro window echoed tc consumed
      cases ev with
      | closed => simp [read_untilAux, RRes.isTimeoutFail]
      | byte b =>
          simp only [read_untilAux]
          split
          · simp [RRes.isTimeoutFail]
          · exact ih _ _ _ _
      | timeout =>
          simp only [read_untilAux]
          exact ih _ _ _ _

/-- C4 (amended): with a configured budget `some t` the wait fails with the
timeout error once `t * 100` no-data intervals are exceeded — the budget is
100 × the configured value, not the configured value itself; with no budget
configured the wait never fails with timeout. -/
theorem read_until_timeout_budget :
    (∀ (term : List Nat) (echo : Bool) (t : Nat) (evs : List Ev),
        read_until term echo (some t)
          (List.replicate (t * 100 + 1) Ev.timeout ++ evs) =
            .failed .timeout) ∧
    (∀ (term : List Nat) (echo : Bool) (evs : List Ev),
        RRes.isTimeoutFail (read_until term echo none evs) = false) := by
  constructor
  · intro term echo t evs
    exact read_untilAux_timeout_budget term echo t (t * 100 + 1) 0 0 _ [] evs
      (by omega) (by omega)
  · intro term echo evs
    exact read_untilAux_none_no_timeout term echo evs _ [] 0 0

/-- Counterexample for C4 as frozen: with configured budget 1 and two
no-data wait intervals (more than the configured count) before the
terminator byte arrives, `read_until` succeeds rather than failing with a
timeout error, because the code tolerates `1 * 100` intervals. -/
theorem read_until_timeout_budget_counterexample :
    read_until [4] false (some 1) [Ev.timeout, Ev.timeout, Ev.byte 4] =
      .matched 1 [] [] := rfl

/-- When `read_untilAux` reports a match, the matching window is the initial
window with the received bytes pushed through it: the terminator equals the
last `window.length` entries of `window ++ bs` for the `bs.length` bytes
consumed after entry. -/
lemma read_untilAux_matched_window (term : List Nat) (echo : Bool)
    (cfg : Option Nat) :
    ∀ (evs : List Ev) (window echoed : List Nat) (tc consumed c : Nat)
      (e : List Nat) (r : List Ev),
      0 < window.length →
      read_untilAux term echo cfg window tc consumed echoed evs =
        .matched c e r →
      ∃ bs : List Nat, c = consumed + bs.length ∧
        term = (window ++ bs).drop bs.length := by
  intro evs
  induction evs with
  | nil =>
      intro window echoed tc consumed c e r hw h
      simp [read_untilAux] at h
  | cons ev rest ih =>
      intro window echoed tc consumed c e r hw h
      cases ev with
      | closed => simp [read_untilAux] at h
      | byte b =>
          simp only [read_untilAux] at h
          by_cases hm : window.drop 1 ++ [b] = term
          · rw [if_pos hm] at h
            cases h
            refine ⟨[b], by simp, ?_⟩
            show term = (window ++ [b]).drop 1
            rw [← hm, List.drop_append_of_le_length (by omega)]
          · rw [if_neg hm] at h
            obtain ⟨bs, hc, ht⟩ :=
              ih (window.drop 1 ++ [b]) _ tc (consumed + 1) c e r
                (by simp) h
            have key : ((window.drop 1 ++ [b]) ++ bs).drop bs.length =
                (window ++ b :: bs).drop (b :: bs).length := by
              have h2 : (window ++ [b]).drop 1 = window.drop 1 ++ [b] :=
                List.drop_append_of_le_length (by omega)
              have h3 : 1 ≤ (window ++ [b]).length := by simp
              conv_rhs =>
                rw [show window ++ b :: bs = (window ++ [b]) ++ bs by simp,
                  List.length_cons,
                  show bs.length + 1 = 1 + bs.length by omega,
                  ← List.drop_drop, List.drop_append_of_le_length h3, h2]
            rw [key] at ht
            exact ⟨b :: bs, by simp only [List.length_cons]; omega, ht⟩
      | timeout =>
          simp only [read_untilAux] at h
          split at h
          · split at h
            · simp at h
            · exact ih window echoed (tc + 1) consumed c e r hw h
          · exact ih window echoed tc consumed c e r hw h

/-- C3 (amended): for every terminator whose first byte differs from the
zero placeholder byte that seeds the window — true of every terminator the
program uses — `read_until` never reports a match before at least
`term.length` bytes have been received. -/
theorem read_until_no_short_match (t0 : Nat) (ts : List Nat) (echo : Bool)
    (cfg : Option Nat) (evs : List Ev) (c : Nat) (e : List Nat) (r : List Ev)
    (h0 : t0 ≠ 0)
    (hm : read_until (t0 :: ts) echo cfg evs = .matched c e r) :
    (t0 :: ts).length ≤ c := by
  obtain ⟨bs, hc, ht⟩ :=
    read_untilAux_matched_window (t0 :: ts) echo cfg evs
      (List.replicate (t0 :: ts).length 0) [] 0 0 c e r (by simp) hm
  by_contra hlt
  push_neg at hlt
  have hblen : bs.length < (t0 :: ts).length := by omega
  have h1 : ((List.replicate (t0 :: ts).length 0 ++ bs).drop
      bs.length).head? = some t0 := by
    rw [← ht]; rfl
  rw [List.head?_drop, List.getElem?_append_left (by simpa using hblen),
    List.getElem?_replicate, if_pos hblen] at h1
  exact h0 (by injection h1 with h1; omega)

/-- Witness for C3 (amended): the two-byte terminator `[13,10]`, whose first
byte is nonzero, is matched only after two bytes. -/
theorem read_until_no_short_match_witness :
    ([13, 10] : List Nat).length ≤ 2 :=
  read_until_no_short_match 13 [10] false none
    [Ev.byte 13, Ev.byte 10] 2 [] [] (by decide) rfl

/-- Counterexample for C3 as frozen: the two-byte terminator `[0,7]` begins
with the placeholder byte seeding the window, so it is matched after a
single received byte — fewer than its length. -/
theorem read_until_short_match_counterexample :
    read_until [0, 7] false none [Ev.byte 7] = .matched 1 [] [] ∧
      1 < ([0, 7] : List Nat).length := ⟨rfl, by decide⟩

/-- One step of the sliding window: pushing byte `j` of the stream through
the window after `j` bytes gives the window after `j + 1` bytes. -/
lemma wAt_succ (n : Nat) (bs : List Nat) (j : Nat) (hj : j < bs.length)
    (hn : 0 < n) :
    wAt n bs (j + 1) = (wAt n bs j).drop 1 ++ [bs[j]] := by
  unfold wAt
  have htake : bs.take (j + 1) = bs.take j ++ [bs[j]] := by
    rw [List.take_succ, List.getElem?_eq_getElem hj]
    rfl
  have hlen : j + 1 ≤ (List.replicate n 0 ++ bs.take j).length := by
    simp [Nat.min_eq_left (Nat.le_of_lt hj)]
    omega
  conv_lhs =>
    rw [htake, show List.replicate n 0 ++ (bs.take j ++ [bs[j]]) =
        (List.replicate n 0 ++ bs.take j) ++ [bs[j]] by simp,
      List.drop_append_of_le_length hlen,
      show j + 1 = j + 1 from rfl]
  rw [show j + 1 = j + 1 from rfl, ← List.drop_drop]

/-- The scan started after `j` bytes of a pure byte stream, with the window
and counters in the state they would have reached, runs on to the earliest
match at position `k`. -/
lemma read_until_earliest_aux (term : List Nat) (echo : Bool)
    (cfg : Option Nat) (bs : List Nat) (k : Nat)
    (hterm : 0 < term.length) (hkb : k ≤ bs.length)
    (hmatch : wAt term.length bs k = term)
    (hmin : ∀ j, j < k → 1 ≤ j → wAt term.length bs j ≠ term) :
    ∀ (d j tc : Nat), j < k → k - j = d →
      read_untilAux term echo cfg (wAt term.length bs j) tc j
        (if echo then bs.take j else []) ((bs.drop j).map Ev.byte) =
      .matched k (if echo then bs.take k else [])
        ((bs.drop k).map Ev.byte) := by
  intro d
  induction d with
  | zero => omega
  | succ d ih =>
      intro j tc hj hd
      have hjb : j < bs.length := lt_of_lt_of_le hj hkb
      have hdrop : bs.drop j = bs[j] :: bs.drop (j + 1) :=
        List.drop_eq_getElem_cons hjb
      rw [hdrop, List.map_cons]
      simp only [read_untilAux]
      rw [← wAt_succ term.length bs j hjb hterm]
      have hech : (if echo then (if echo then bs.take j else []) ++ [bs[j]]
          else (if echo then bs.take j else [])) =
          (if echo then bs.take (j + 1) else []) := by
        cases echo with
        | false => rfl
        | true =>
            simp only [if_pos rfl]
            rw [List.take_succ, List.getElem?_eq_getElem hjb]
            rfl
      by_cases hm : wAt term.length bs (j + 1) = term
      · have hk : j + 1 = k := by
          by_contra hne
          exact hmin (j + 1) (by omega) (by omega) hm
        rw [if_pos hm]
        rw [hech, hk]
      · rw [if_neg hm]
        have hk1 : j + 1 < k := by
          rcases Nat.lt_or_ge (j + 1) k with h | h
          · exact h
          · have : j + 1 = k := by omega
            rw [this] at hm
            exact absurd hmatch hm
        rw [hech]
        exact ih (j + 1) tc hk1 (by omega)

/-- C8: the reader matches at the earliest possible position.  Feeding a
pure byte stream, if `k` is the first position (at least one byte in) at
which the last `term.length` bytes pushed through the zero-seeded window
equal the terminator, then `read_until` returns exactly there: it consumes
`k` bytes, echoes exactly the bytes up to and including the match when echo
is on, and leaves every later byte unread. -/
theorem read_until_earliest_match (term bs : List Nat) (echo : Bool)
    (cfg : Option Nat) (k : Nat)
    (hterm : 0 < term.length) (hk1 : 1 ≤ k) (hkb : k ≤ bs.length)
    (hmatch : wAt term.length bs k = term)
    (hmin : ∀ j, j < k → 1 ≤ j → wAt term.length bs j ≠ term) :
    read_until term echo cfg (bs.map Ev.byte) =
      .matched k (if echo then bs.take k else [])
        ((bs.drop k).map Ev.byte) := by
  have h0 := read_until_earliest_aux term echo cfg bs k hterm hkb hmatch hmin
    k 0 0 (by omega) (by omega)
  unfold read_until
  simpa [wAt] using h0

/-- Witness for C8: terminator `[13,10]` in the stream `[65,13,10,66]` is
matched at position 3, echoing `[65,13,10]` and leaving `[66]` unread. -/
theorem read_until_earliest_match_witness :
    read_until [13, 10] true none ([65, 13, 10, 66].map Ev.byte) =
      .matched 3 (if true then [65, 13, 10, 66].take 3 else [])
        (([65, 13, 10, 66].drop 3).map Ev.byte) :=
  read_until_earliest_match [13, 10] [65, 13, 10, 66] true none 3
    (by decide) (by decide) (by decide) (by decide)
    (by decide)

/-- C5: whenever `execute` returns success, it did so by performing, after
the transfer, three `read_until` waits for the end-marker byte in order —
the first with echo disabled, the second with echo enabled yielding the
captured stdout, the third with echo enabled yielding the captured stderr —
and the events left unread are exactly those following the third match. -/
theorem execute_three_completion_waits (script : List Nat)
    (cfg : Option Nat) (evs : List Ev) (out : List (List Nat))
    (sout serr : List Nat) (rest : List Ev)
    (h : execute script cfg evs = .ok out sout serr rest) :
    ∃ (e0 : List Ev) (c1 : Nat) (w1 : List Nat) (r1 : List Ev) (c2 : Nat)
      (r2 : List Ev) (c3 : Nat),
      read_until [4] false cfg e0 = .matched c1 w1 r1 ∧
      read_until [4] true cfg r1 = .matched c2 sout r2 ∧
      read_until [4] true cfg r2 = .matched c3 serr rest := by
  unfold execute at h
  split at h
  · simp at h
  · unfold afterPrompt at h
    split at h
    · simp at h
    · split at h
      · simp at h
      · unfold afterNegotiation at h
        split at h
        · simp at h
        · split at h
          · simp at h
          · unfold completionWaits at h
            split at h
            · simp at h
            · rename_i c1 w1 r1 h1
              split at h
              · simp at h
              · rename_i c2 w2 r2 h2
                split at h
                · simp at h
                · rename_i c3 w3 r3 h3
                  cases h
                  exact ⟨_, c1, w1, r1, c2, r2, c3, h1, h2, h3⟩
      · simp at h

/-- Witness for C5: a complete successful session over the scripted run
`witEvsFull`, with payload `[9,8]`, captured stdout `[72,4]` and captured
stderr `[4]`. -/
theorem execute_three_completion_waits_witness :
    ∃ (e0 : List Ev) (c1 : Nat) (w1 : List Nat) (r1 : List Ev) (c2 : Nat)
      (r2 : List Ev) (c3 : Nat),
      read_until [4] false none e0 = .matched c1 w1 r1 ∧
      read_until [4] true none r1 = .matched c2 [72, 4] r2 ∧
      read_until [4] true none r2 = .matched c3 [4] [] :=
  execute_three_completion_waits [9, 8] none witEvsFull
    [[13, 3, 3], [13, 1], [4], [5, 65, 1], [9, 8], [4]] [72, 4] [4] []
    (by decide)

/-- C6: after a successful handshake prefix, `execute` reads exactly the
next two bytes as the negotiation response: `[82,0]` fails with the
unsupported-bulk-mode error, `[82,1]` proceeds to the window read and
transfer, and any other pair fails with the unknown-response error; in the
failing cases the write trace holds only the fixed handshake byte strings,
so no payload byte has been written. -/
theorem execute_negotiation_cases (script : List Nat) (cfg : Option Nat)
    (evs : List Ev) :
    (∀ (rest : List Ev) (outh : List (List Nat)),
        preNegotiation cfg evs = .ok (Ev.byte 82 :: Ev.byte 0 :: rest) outh →
        execute script cfg evs = .fail .unsupported (outh ++ [[5, 65, 1]])) ∧
    (∀ (rest : List Ev) (outh : List (List Nat)),
        preNegotiation cfg evs = .ok (Ev.byte 82 :: Ev.byte 1 :: rest) outh →
        execute script cfg evs =
          afterNegotiation script cfg rest (outh ++ [[5, 65, 1]])) ∧
    (∀ (a b : Nat) (rest : List Ev) (outh : List (List Nat)),
        preNegotiation cfg evs = .ok (Ev.byte a :: Ev.byte b :: rest) outh →
        ¬(a = 82 ∧ b = 0) → ¬(a = 82 ∧ b = 1) →
        execute script cfg evs = .fail .unknown (outh ++ [[5, 65, 1]])) ∧
    (∀ (evs' : List Ev) (outh : List (List Nat)),
        preNegotiation cfg evs = .ok evs' outh →
        outh = [[13, 3, 3], [13, 1], [4]]) := by
  refine ⟨?_, ?_, ?_, ?_⟩
  · intro rest outh hpre
    unfold execute
    rw [hpre]
    simp [afterPrompt, readExact2]
  · intro rest outh hpre
    unfold execute
    rw [hpre]
    simp [afterPrompt, readExact2]
  · intro a b rest outh hpre ha hb
    unfold execute
    rw [hpre]
    unfold afterPrompt
    simp only [readExact2]
    split
    · exact absurd ⟨rfl, rfl⟩ ha
    · exact absurd ⟨rfl, rfl⟩ hb
    · rfl
  · intro evs' outh hpre
    unfold preNegotiation at hpre
    split at hpre
    · simp at hpre
    · split at hpre
      · simp at hpre
      · split at hpre
        · simp at hpre
        · split at hpre
          · simp at hpre
          · split at hpre
            · simp at hpre
            · cases hpre
              rfl

/-- Witness for C6: the scripted handshake run followed by the `[82,0]`
response makes `execute` fail as unsupported, with only the four fixed
handshake writes in the trace. -/
theorem execute_negotiation_cases_witness :
    execute [9] none (witEvsPre ++ [Ev.byte 82, Ev.byte 0]) =
      .fail .unsupported ([[13, 3, 3], [13, 1], [4]] ++ [[5, 65, 1]]) :=
  (execute_negotiation_cases [9] none
      (witEvsPre ++ [Ev.byte 82, Ev.byte 0])).1 []
    [[13, 3, 3], [13, 1], [4]] (by decide)

end Serpico
